import Mathlib

set_option autoImplicit false
set_option maxHeartbeats 1000000

/-!
Verification development for the `filter_plugins/comprehension.py` filter
library: a shallow embedding of the Python 2 source into Lean 4, followed by
theorems about the embedded functions.

The embedding choices:
  - Python runtime values are modelled by the inductive type `Value`:
    `None`, booleans, integers, text strings, lists, sets, tuples and
    dicts (dicts as ordered association lists, matching iteration order).
    Floating-point and complex scalars are outside the model; no claim
    depends on them.
  - Python truthiness, `==` equality (with the bool/int numeric coercion),
    and the Python 2 default ordering (None smallest, then numbers, then
    other types by type name) are modelled by `truthy`, `pyEq` and `pyCmp`.
  - Code that can raise becomes `Except PyErr`; the error constructors name
    the Python exception classes the source raises.
-/

/-- Python-like runtime values: the data model of the filter library. -/
inductive Value where
  | none : Value
  | bool : Bool → Value
  | int : Int → Value
  | str : String → Value
  | list : List Value → Value
  | set : List Value → Value
  | tuple : List Value → Value
  | dict : List (Value × Value) → Value

/-- A Python dict is modelled as an ordered association list. -/
abbrev PyDict := List (Value × Value)

/-- Python exceptions raised by the source code. -/
inductive PyErr where
  | valueError : String → PyErr
  | assertionError : String → PyErr
  | typeError : String → PyErr
  | attributeError : String → PyErr

/-- Python truthiness: `bool(v)`. -/
def truthy : Value → Bool
  | .none => false
  | .bool b => b
  | .int n => n != 0
  | .str s => s != ""
  | .list xs => !xs.isEmpty
  | .set xs => !xs.isEmpty
  | .tuple xs => !xs.isEmpty
  | .dict xs => !xs.isEmpty

/-- Models `isinstance(v, scalar_types)` for `scalar_types = (basestring,
int, float, complex, bool)`; the model carries strings, ints and bools. -/
def isScalar : Value → Bool
  | .bool _ => true
  | .int _ => true
  | .str _ => true
  | _ => false

/-- Models `isinstance(v, list_types)` for `list_types = (list, set, tuple)`. -/
def isListLike : Value → Bool
  | .list _ => true
  | .set _ => true
  | .tuple _ => true
  | _ => false

mutual

/-- Python `==` on values: numeric coercion between bool and int, elementwise
equality on lists and tuples, mutual membership on sets, mutual entry
containment on dicts, and `false` across distinct types. -/
def pyEq : Value → Value → Bool
  | .none, .none => true
  | .bool a, .bool b => a == b
  | .bool a, .int n => (if a then (1 : Int) else 0) == n
  | .int n, .bool b => n == (if b then (1 : Int) else 0)
  | .int m, .int n => m == n
  | .str s, .str t => s == t
  | .list xs, .list ys => pyEqList xs ys
  | .tuple xs, .tuple ys => pyEqList xs ys
  | .set xs, .set ys => pyAllMem xs ys && pyAllMem ys xs
  | .dict xs, .dict ys => pyDictSub xs ys && pyDictSub ys xs
  | _, _ => false
termination_by a b => sizeOf a + sizeOf b

/-- Elementwise Python equality of two lists. -/
def pyEqList : List Value → List Value → Bool
  | [], [] => true
  | x :: xs, y :: ys => pyEq x y && pyEqList xs ys
  | _, _ => false
termination_by xs ys => sizeOf xs + sizeOf ys

/-- Python membership `x in ys` by `==`. -/
def pyMemIn : Value → List Value → Bool
  | _, [] => false
  | x, y :: ys => pyEq x y || pyMemIn x ys
termination_by x ys => sizeOf x + sizeOf ys

/-- Every element of the first list is a member of the second. -/
def pyAllMem : List Value → List Value → Bool
  | [], _ => true
  | x :: xs, ys => pyMemIn x ys && pyAllMem xs ys
termination_by xs ys => sizeOf xs + sizeOf ys

/-- The pair `(k, v)` occurs (up to Python equality) among the entries. -/
def pyPairMem : Value → Value → List (Value × Value) → Bool
  | _, _, [] => false
  | k, v, (k2, v2) :: rest => (pyEq k k2 && pyEq v v2) || pyPairMem k v rest
termination_by k v ys => sizeOf k + sizeOf v + sizeOf ys

/-- Every entry of the first association list occurs in the second. -/
def pyDictSub : List (Value × Value) → List (Value × Value) → Bool
  | [], _ => true
  | (k, v) :: rest, ys => pyPairMem k v ys && pyDictSub rest ys
termination_by xs ys => sizeOf xs + sizeOf ys

end

/-- Lookup `d.get(k)` on a dict: the value of the first entry whose key is
Python-equal to `k`, defaulting to `None` when no entry matches. -/
def dictGet (d : PyDict) (k : Value) : Value :=
  match d with
  | [] => .none
  | (k2, v) :: rest => if pyEq k k2 then v else dictGet rest k

/-- Lookup as an `Option`, distinguishing an absent key from a stored `None`. -/
def dictGetOpt (d : PyDict) (k : Value) : Option Value :=
  match d with
  | [] => Option.none
  | (k2, v) :: rest => if pyEq k k2 then some v else dictGetOpt rest k

/-- Store `d[k] = v`: replace the value of the first entry whose key is
Python-equal to `k` (keeping the stored key, as CPython does), else append. -/
def dictSet (d : PyDict) (k : Value) (v : Value) : PyDict :=
  match d with
  | [] => [(k, v)]
  | (k2, v2) :: rest =>
      if pyEq k k2 then (k2, v) :: rest else (k2, v2) :: dictSet rest k v

/-- Membership `k in d` for a dict. -/
def hasKey (d : PyDict) (k : Value) : Bool :=
  match d with
  | [] => false
  | (k2, _) :: rest => pyEq k k2 || hasKey rest k

/-- Numeric view of a value: booleans coerce to 0 and 1, as in Python. -/
def numVal : Value → Option Int
  | .bool b => some (if b then 1 else 0)
  | .int n => some n
  | _ => Option.none

/-- Three-way comparison of integers. -/
def intCmp (m n : Int) : Ordering :=
  if m < n then .lt else if m = n then .eq else .gt

/-- Three-way comparison of naturals. -/
def natCmp (m n : Nat) : Ordering :=
  if m < n then .lt else if m = n then .eq else .gt

/-- Three-way lexicographic comparison of strings. -/
def strCmp (s t : String) : Ordering :=
  if s < t then .lt else if s = t then .eq else .gt

/-- Rank used by the Python 2 default mixed-type ordering: `None` is smaller
than everything, numbers are smaller than any non-numeric value, and the
remaining types compare by type name (dict, list, set, str, tuple). -/
def typeRank : Value → Nat
  | .none => 0
  | .bool _ => 1
  | .int _ => 1
  | .dict _ => 2
  | .list _ => 3
  | .set _ => 4
  | .str _ => 5
  | .tuple _ => 6

mutual

/-- Python 2 default three-way comparison `cmp(a, b)`: numeric values compare
by value, strings lexicographically, lists and tuples elementwise, dicts by
size and then entries (an abstraction of the CPython dict ordering), and
mixed types by `typeRank`. -/
def pyCmp : Value → Value → Ordering
  | .str s, .str t => strCmp s t
  | .list xs, .list ys => pyCmpList xs ys
  | .tuple xs, .tuple ys => pyCmpList xs ys
  | .set xs, .set ys => pyCmpList xs ys
  | .dict xs, .dict ys =>
      match natCmp xs.length ys.length with
      | .eq => pyCmpPairs xs ys
      | o => o
  | a, b =>
      match numVal a, numVal b with
      | some m, some n => intCmp m n
      | _, _ => natCmp (typeRank a) (typeRank b)
termination_by a b => sizeOf a + sizeOf b

/-- Lexicographic comparison of two value lists. -/
def pyCmpList : List Value → List Value → Ordering
  | [], [] => .eq
  | [], _ :: _ => .lt
  | _ :: _, [] => .gt
  | x :: xs, y :: ys =>
      match pyCmp x y with
      | .eq => pyCmpList xs ys
      | o => o
termination_by xs ys => sizeOf xs + sizeOf ys

/-- Lexicographic comparison of two entry lists. -/
def pyCmpPairs : List (Value × Value) → List (Value × Value) → Ordering
  | [], [] => .eq
  | [], _ :: _ => .lt
  | _ :: _, [] => .gt
  | (k, v) :: xs, (k2, v2) :: ys =>
      match pyCmp k k2 with
      | .eq =>
          match pyCmp v v2 with
          | .eq => pyCmpPairs xs ys
          | o => o
      | o => o
termination_by xs ys => sizeOf xs + sizeOf ys

end

/-- A string holding one apostrophe character. -/
def apos : String := (Char.ofNat 39).toString

mutual

/-- Python `repr` of a value (string escaping is not modelled). -/
def pyRepr : Value → String
  | .none => "None"
  | .bool true => "True"
  | .bool false => "False"
  | .int n => toString n
  | .str s => apos ++ s ++ apos
  | .list xs => "[" ++ pyReprList xs ++ "]"
  | .tuple [] => "()"
  | .tuple [x] => "(" ++ pyRepr x ++ ",)"
  | .tuple xs => "(" ++ pyReprList xs ++ ")"
  | .set xs => "set([" ++ pyReprList xs ++ "])"
  | .dict xs => (Char.ofNat 123).toString ++ pyReprPairs xs ++ (Char.ofNat 125).toString
termination_by structural v => v

/-- Comma-separated reprs of list elements. -/
def pyReprList : List Value → String
  | [] => ""
  | [x] => pyRepr x
  | x :: xs => pyRepr x ++ ", " ++ pyReprList xs
termination_by structural xs => xs

/-- Comma-separated reprs of dict entries. -/
def pyReprPairs : List (Value × Value) → String
  | [] => ""
  | [(k, v)] => pyRepr k ++ ": " ++ pyRepr v
  | (k, v) :: xs => pyRepr k ++ ": " ++ pyRepr v ++ ", " ++ pyReprPairs xs
termination_by structural xs => xs

end

/-- Python `str` of a value: strings render bare, everything else as `repr`. -/
def pyStr : Value → String
  | .str s => s
  | v => pyRepr v

/-- Names registered in the `unary_ops` dispatch table of the source. -/
def unary_ops : List String := ["not", "truth", "is", "is_not"]

/-- Names registered in the `binary_ops` dispatch table of the source. -/
def binary_ops : List String := ["eq", "le", "ge", "lt", "gt", "ne"]

/-- The binary comparison selected from `binary_ops`: `operator.eq`, `le`,
`ge`, `lt`, `gt` or `ne` on two values.  Two sets use the rich subset
comparisons; any other pair of values uses the Python 2 default ordering. -/
def binaryTest (op : String) (a b : Value) : Bool :=
  if op = "eq" then pyEq a b
  else if op = "ne" then !pyEq a b
  else
    match a, b with
    | .set xs, .set ys =>
        if op = "le" then pyAllMem xs ys
        else if op = "lt" then pyAllMem xs ys && !pyAllMem ys xs
        else if op = "ge" then pyAllMem ys xs
        else pyAllMem ys xs && !pyAllMem xs ys
    | a2, b2 =>
        if op = "le" then
          match pyCmp a2 b2 with
          | .gt => false
          | _ => true
        else if op = "lt" then
          match pyCmp a2 b2 with
          | .lt => true
          | _ => false
        else if op = "ge" then
          match pyCmp a2 b2 with
          | .lt => false
          | _ => true
        else
          match pyCmp a2 b2 with
          | .gt => true
          | _ => false

/-- The unary test selected from `unary_ops` applied to one argument, as the
source does in `filter_by_key`.  `operator.not_` and `operator.truth` are
genuine one-argument functions; `operator.is_` and `operator.is_not` take
two arguments, so calling them with a single argument raises `TypeError`. -/
def unaryTest (op : String) (v : Value) : Except PyErr Bool :=
  if op = "not" then .ok (!truthy v)
  else if op = "truth" then .ok (truthy v)
  else .error (.typeError "takes exactly 2 arguments (1 given)")

/-- When the separator is a prefix of the character list, return the rest. -/
def dropSep : List Char → List Char → Option (List Char)
  | [], cs => some cs
  | _ :: _, [] => Option.none
  | s :: ss, c :: cs => if c = s then dropSep ss cs else Option.none

/-- Split a character list on every occurrence of the separator; the fuel is
at least the length of the list, so it never runs out. -/
def splitAux (sep : List Char) : Nat → List Char → List Char → List (List Char)
  | _, [], acc => [acc.reverse]
  | 0, cs, acc => [acc.reverse ++ cs]
  | f + 1, c :: cs, acc =>
      match dropSep sep (c :: cs) with
      | some rest => acc.reverse :: splitAux sep f rest []
      | Option.none => splitAux sep f cs (c :: acc)

/-- Models Python `s.split(sep)` for a non-empty separator, as used with the
path delimiter (Python raises on an empty separator; the model returns the
whole string). -/
def pySplit (s sep : String) : List String :=
  if sep.isEmpty then [s]
  else (splitAux sep.toList (s.toList.length + 1) s.toList []).map String.mk

/-- One step of the key-path resolver `f = lambda z,k: z.get(k) if z else
None` shared by `to_map` and `map_keys`: a falsy value short-circuits to
`None`; a truthy dict is looked up with `.get`; a truthy non-dict has no
`get` attribute and raises `AttributeError`. -/
def resolveStep (z : Value) (k : String) : Except PyErr Value :=
  if truthy z then
    match z with
    | .dict d => .ok (dictGet d (.str k))
    | _ => .error (.attributeError "object has no attribute get")
  else .ok .none

/-- Models `reduce(f, p, x)` over the path components `p` starting at `x`. -/
def resolveKey : Value → List String → Except PyErr Value
  | z, [] => .ok z
  | z, k :: ks => do
      let w ← resolveStep z k
      resolveKey w ks

/-- Models `FilterModule.one`: the sole element of a list, `ValueError` on an
empty or multi-element list. -/
def one (l : List Value) : Except PyErr Value :=
  if 1 < l.length then .error (.valueError "The list contains more than 1 element")
  else
    match l with
    | [] => .error (.valueError "The list is empty")
    | a :: _ => .ok a

/-- The loop body of `to_map`: fold the items, resolving the key path of each
item and storing the item under a truthy resolved key. -/
def to_map_go (p : List String) (res : PyDict) : List Value → Except PyErr PyDict
  | [] => .ok res
  | x :: xs => do
      let k ← resolveKey x p
      to_map_go p (if truthy k then dictSet res k x else res) xs

/-- Models `FilterModule.to_map`. -/
def to_map (l : List Value) (item_key : String) (path_delimiter : String) :
    Except PyErr PyDict :=
  to_map_go (pySplit item_key path_delimiter) [] l

/-- Models `fmt.format(v)` for a format string using the positional
placeholder 0 in braces: every occurrence is replaced by `str(v)`. -/
def formatOne (fmt : String) (v : Value) : String :=
  String.intercalate (pyStr v)
    (pySplit fmt ((Char.ofNat 123).toString ++ "0" ++ (Char.ofNat 125).toString))

/-- Models `FilterModule.format_items`. -/
def format_items (it : List Value) (fmt : String) : List String :=
  it.map (fun x => formatOne fmt x)

mutual

/-- Models `_flatten_list(pres, y)`: append a non-sequence value, recurse
into a list-, set- or tuple-like value. -/
def flattenStep : List Value → Value → List Value
  | pres, .list ys => flattenFold pres ys
  | pres, .set ys => flattenFold pres ys
  | pres, .tuple ys => flattenFold pres ys
  | pres, y => pres ++ [y]
termination_by structural _ y => y

/-- Models the inner loop `for yy in y: pres = _flatten_list(pres, yy)`,
which is also `reduce(_flatten_list, l, ...)`. -/
def flattenFold : List Value → List Value → List Value
  | pres, [] => pres
  | pres, y :: ys => flattenFold (flattenStep pres y) ys
termination_by structural _ ys => ys

end

/-- Models `FilterModule.flatten_list`: `reduce(_flatten_list, l, [])`. -/
def flatten_list (l : List Value) : List Value := flattenFold [] l

/-- Models `FilterModule.list_values`. -/
def list_values (d : PyDict) : List Value := d.map (fun kv => kv.2)

/-- Models `FilterModule.list_keys`. -/
def list_keys (d : PyDict) : List Value := d.map (fun kv => kv.1)

/-- Models `FilterModule.to_kv_pairs`: keep the entries whose value is falsy
or scalar, render each as `key=value` (bare key when the value is falsy) and
join them with the separator. -/
def to_kv_pairs (d : PyDict) (sep : String) : String :=
  String.intercalate sep
    ((d.filter (fun kv => !truthy kv.2 || isScalar kv.2)).map
      (fun kv => if truthy kv.2 then pyStr kv.1 ++ "=" ++ pyStr kv.2 else pyStr kv.1))

/-- Error raised by `json.loads` on undecodable text. -/
def jsonErr : PyErr := .valueError "No JSON object could be decoded"

/-- JSON whitespace. -/
def jsonWsChar (c : Char) : Bool :=
  c = ' ' || c = Char.ofNat 9 || c = Char.ofNat 10 || c = Char.ofNat 13

/-- Drop leading JSON whitespace. -/
def wsDrop : List Char → List Char
  | [] => []
  | c :: cs => if jsonWsChar c then wsDrop cs else c :: cs

/-- JSON string escape characters (unicode escapes are not modelled). -/
def jsonEscape (c : Char) : Option Char :=
  if c = Char.ofNat 34 then some (Char.ofNat 34)
  else if c = Char.ofNat 92 then some (Char.ofNat 92)
  else if c = '/' then some '/'
  else if c = 'n' then some (Char.ofNat 10)
  else if c = 't' then some (Char.ofNat 9)
  else if c = 'r' then some (Char.ofNat 13)
  else if c = 'b' then some (Char.ofNat 8)
  else if c = 'f' then some (Char.ofNat 12)
  else Option.none

/-- Parse the remainder of a JSON string literal (the opening quote already
consumed), accumulating characters in reverse. -/
def jsonString : List Char → List Char → Except PyErr (String × List Char)
  | [], _ => .error jsonErr
  | c :: cs, acc =>
      if c = Char.ofNat 34 then .ok (String.mk acc.reverse, cs)
      else if c = Char.ofNat 92 then
        match cs with
        | [] => .error jsonErr
        | e :: cs2 =>
            match jsonEscape e with
            | some ch => jsonString cs2 (ch :: acc)
            | Option.none => .error jsonErr
      else jsonString cs (c :: acc)

/-- Decimal value of a digit list. -/
def digitsToNat (ds : List Char) : Nat :=
  ds.foldl (fun n c => n * 10 + (c.toNat - 48)) 0

/-- Parse a JSON integer literal (floating-point literals are outside the
value model and are rejected). -/
def jsonNumber (cs : List Char) : Except PyErr (Value × List Char) :=
  let signed := match cs with
    | c :: rest => if c = '-' then (true, rest) else (false, cs)
    | [] => (false, cs)
  let ds := signed.2.takeWhile (fun c => c.isDigit)
  let rest := signed.2.dropWhile (fun c => c.isDigit)
  if ds.isEmpty then .error jsonErr
  else
    let n : Int := if signed.1 then -(digitsToNat ds : Int) else (digitsToNat ds : Int)
    match rest with
    | c :: _ =>
        if c = '.' || c = 'e' || c = 'E' then .error jsonErr
        else .ok (.int n, rest)
    | [] => .ok (.int n, rest)

mutual

/-- Parse one JSON value; the fuel bounds the nesting depth. -/
def jsonValue : Nat → List Char → Except PyErr (Value × List Char)
  | 0, _ => .error jsonErr
  | f + 1, cs0 =>
      match wsDrop cs0 with
      | 'n' :: 'u' :: 'l' :: 'l' :: r => .ok (.none, r)
      | 't' :: 'r' :: 'u' :: 'e' :: r => .ok (.bool true, r)
      | 'f' :: 'a' :: 'l' :: 's' :: 'e' :: r => .ok (.bool false, r)
      | c :: r =>
          if c = Char.ofNat 34 then do
            let sr ← jsonString r []
            pure (.str sr.1, sr.2)
          else if c = '[' then jsonArrayItems f r
          else if c = Char.ofNat 123 then jsonObjectItems f r
          else if c = '-' || c.isDigit then jsonNumber (c :: r)
          else .error jsonErr
      | [] => .error jsonErr

/-- Parse the items of a JSON array (opening bracket already consumed). -/
def jsonArrayItems : Nat → List Char → Except PyErr (Value × List Char)
  | 0, _ => .error jsonErr
  | f + 1, cs =>
      match wsDrop cs with
      | ']' :: r => .ok (.list [], r)
      | cs2 => do
          let vr ← jsonValue f cs2
          jsonArrayRest f [vr.1] vr.2

/-- Parse the remaining comma-separated items of a JSON array. -/
def jsonArrayRest : Nat → List Value → List Char → Except PyErr (Value × List Char)
  | 0, _, _ => .error jsonErr
  | f + 1, acc, cs =>
      match wsDrop cs with
      | ',' :: r => do
          let vr ← jsonValue f r
          jsonArrayRest f (acc ++ [vr.1]) vr.2
      | ']' :: r => .ok (.list acc, r)
      | _ => .error jsonErr

/-- Parse the entries of a JSON object (opening brace already consumed). -/
def jsonObjectItems : Nat → List Char → Except PyErr (Value × List Char)
  | 0, _ => .error jsonErr
  | f + 1, cs =>
      match wsDrop cs with
      | [] => .error jsonErr
      | c :: r =>
          if c = Char.ofNat 125 then .ok (.dict [], r)
          else jsonObjectLoop f [] (c :: r)

/-- Parse the comma-separated `key: value` entries of a JSON object. -/
def jsonObjectLoop : Nat → PyDict → List Char → Except PyErr (Value × List Char)
  | 0, _, _ => .error jsonErr
  | f + 1, acc, cs =>
      match wsDrop cs with
      | c :: r =>
          if c = Char.ofNat 34 then do
            let sr ← jsonString r []
            match wsDrop sr.2 with
            | ':' :: r2 => do
                let vr ← jsonValue f r2
                let acc2 := dictSet acc (.str sr.1) vr.1
                match wsDrop vr.2 with
                | ',' :: r4 => jsonObjectLoop f acc2 r4
                | c2 :: r4 =>
                    if c2 = Char.ofNat 125 then .ok (.dict acc2, r4) else .error jsonErr
                | [] => .error jsonErr
            | _ => .error jsonErr
          else .error jsonErr
      | [] => .error jsonErr

end

/-- Models `json.loads` restricted to the value model: decodes a text string
to a value, raises `TypeError` on non-string input and `ValueError` on
undecodable text, as the Python 2 json module does. -/
def json_loads (v : Value) : Except PyErr Value :=
  match v with
  | .str s => do
      let cs := s.toList
      let xr ← jsonValue (cs.length + 1) cs
      if (wsDrop xr.2).isEmpty then pure xr.1 else .error (.valueError "Extra data")
  | _ => .error (.typeError "expected string or buffer")

/-- Models `FilterModule.map_keys`: select the key list (all keys of `d` for
the literal star, else a list or set of keys, else `AssertionError`), map
each key to its value (through the formatted `source_path` key path when one
is supplied), and optionally decode every value as JSON. -/
def map_keys (d : PyDict) (keys : Value) (source_path : Option String)
    (path_delimiter : String) (decode_json : Bool) : Except PyErr PyDict := do
  let keyList ←
    if pyEq keys (.str "*") then Except.ok (list_keys d)
    else
      match keys with
      | .list ks => Except.ok ks
      | .set ks => Except.ok ks
      | _ => Except.error (.assertionError "Expected an iterable of keys")
  let res ←
    match source_path with
    | some sp =>
        keyList.foldlM (fun r k => do
          let v ← resolveKey (.dict d) (pySplit (formatOne sp k) path_delimiter)
          pure (dictSet r k v)) ([] : PyDict)
    | Option.none =>
        Except.ok (keyList.foldl (fun r k => dictSet r k (dictGet d k)) ([] : PyDict))
  if decode_json then
    res.foldlM (fun r kv => do
      let w ← json_loads kv.2
      pure (dictSet r kv.1 w)) ([] : PyDict)
  else pure res

/-- Sequential filtering in the `Except` monad: the predicate is applied to
the items in order and its first exception propagates, as Python 2 `filter`
does with a raising predicate. -/
def exceptFilter {α : Type} (p : α → Except PyErr Bool) : List α → Except PyErr (List α)
  | [] => .ok []
  | x :: xs => do
      let b ← p x
      let r ← exceptFilter p xs
      pure (if b then x :: r else r)

/-- Models `FilterModule.filter_by_key` on a sequence of mapping-like items
(the domain the spec gives it): dispatch the operator name to a predicate
and filter the items with it. -/
def filter_by_key (l : List PyDict) (key : Value) (op : String) (value : Value) :
    Except PyErr (List PyDict) :=
  if op = "exists" then
    exceptFilter (fun x => .ok (hasKey x key)) l
  else if unary_ops.contains op then
    exceptFilter (fun x => if hasKey x key then unaryTest op (dictGet x key) else .ok false) l
  else if binary_ops.contains op then
    exceptFilter
      (fun x => if hasKey x key then .ok (binaryTest op (dictGet x key) value) else .ok false) l
  else .error (.valueError ("Unknown operator: " ++ op))

mutual

/-- The flat sequence of non-sequence leaf values of a value, depth-first and
left-to-right, as the specification describes `flatten_list`: list-, set-
and tuple-like values are expanded, every other value is a leaf. -/
def leavesSpec : Value → List Value
  | .list ys => leavesSpecList ys
  | .set ys => leavesSpecList ys
  | .tuple ys => leavesSpecList ys
  | v => [v]
termination_by structural v => v

/-- Concatenated leaf sequences of a list of values. -/
def leavesSpecList : List Value → List Value
  | [] => []
  | y :: ys => leavesSpec y ++ leavesSpecList ys
termination_by structural ys => ys

end

@[simp] theorem okBind {α β : Type} (a : α) (f : α → Except PyErr β) :
    (Except.ok a : Except PyErr α) >>= f = f a := rfl

@[simp] theorem errBind {α β : Type} (e : PyErr) (f : α → Except PyErr β) :
    (Except.error e : Except PyErr α) >>= f = Except.error e := rfl

theorem pyEqList_refl_of (xs : List Value) (h : ∀ x ∈ xs, pyEq x x = true) :
    pyEqList xs xs = true := by
  induction xs with
  | nil => simp [pyEqList]
  | cons x t ih =>
      simp [pyEqList, h x (List.mem_cons_self x t),
        ih (fun z hz => h z (List.mem_cons_of_mem x hz))]

theorem pyMemIn_of_refl (x : Value) (hx : pyEq x x = true) :
    ∀ ys : List Value, x ∈ ys → pyMemIn x ys = true := by
  intro ys hmem
  induction ys with
  | nil => cases hmem
  | cons y t ih =>
      rcases List.mem_cons.mp hmem with h1 | h2
      · rw [← h1]; simp [pyMemIn, hx]
      · simp [pyMemIn, ih h2]

theorem pyAllMem_of (xs ys : List Value) (h : ∀ x ∈ xs, pyMemIn x ys = true) :
    pyAllMem xs ys = true := by
  induction xs with
  | nil => simp [pyAllMem]
  | cons x t ih =>
      simp [pyAllMem, h x (List.mem_cons_self x t),
        ih (fun z hz => h z (List.mem_cons_of_mem x hz))]

theorem pyAllMem_refl_of (xs : List Value) (h : ∀ x ∈ xs, pyEq x x = true) :
    pyAllMem xs xs = true :=
  pyAllMem_of xs xs (fun x hx => pyMemIn_of_refl x (h x hx) xs hx)

theorem pyPairMem_of_refl (k v : Value) (hk : pyEq k k = true) (hv : pyEq v v = true) :
    ∀ ys : PyDict, (k, v) ∈ ys → pyPairMem k v ys = true := by
  intro ys hmem
  induction ys with
  | nil => cases hmem
  | cons kv t ih =>
      rcases List.mem_cons.mp hmem with h1 | h2
      · rw [← h1]; simp [pyPairMem, hk, hv]
      · obtain ⟨k2, v2⟩ := kv
        simp [pyPairMem, ih h2]

theorem pyDictSub_of (xs ys : PyDict) (h : ∀ kv ∈ xs, pyPairMem kv.1 kv.2 ys = true) :
    pyDictSub xs ys = true := by
  induction xs with
  | nil => simp [pyDictSub]
  | cons kv t ih =>
      obtain ⟨k2, v2⟩ := kv
      have h1 := h (k2, v2) (List.mem_cons_self _ _)
      simp only at h1
      simp [pyDictSub, h1, ih (fun z hz => h z (List.mem_cons_of_mem _ hz))]

theorem pyDictSub_refl_of (xs : PyDict) (h : ∀ kv ∈ xs, pyEq kv.1 kv.1 = true ∧ pyEq kv.2 kv.2 = true) :
    pyDictSub xs xs = true :=
  pyDictSub_of xs xs (fun kv hkv => by
    obtain ⟨k2, v2⟩ := kv
    exact pyPairMem_of_refl k2 v2 (h _ hkv).1 (h _ hkv).2 xs hkv)

theorem pyEq_refl (v : Value) : pyEq v v = true := by
  suffices h : ∀ (n : Nat) (w : Value), sizeOf w ≤ n → pyEq w w = true by
    exact h (sizeOf v) v le_rfl
  intro n
  induction n using Nat.strong_induction_on with
  | _ n ih =>
    intro w hw
    have hel : ∀ (x : Value), sizeOf x < sizeOf w → pyEq x x = true := by
      intro x hx
      exact ih (sizeOf x) (by omega) x le_rfl
    cases w with
    | none => simp [pyEq]
    | bool b => simp [pyEq]
    | int m => simp [pyEq]
    | str s => simp [pyEq]
    | list xs =>
        have hx : ∀ x ∈ xs, pyEq x x = true := by
          intro x hmem
          have h1 := List.sizeOf_lt_of_mem hmem
          exact hel x (by simp; omega)
        simp [pyEq]
        exact pyEqList_refl_of xs hx
    | tuple xs =>
        have hx : ∀ x ∈ xs, pyEq x x = true := by
          intro x hmem
          have h1 := List.sizeOf_lt_of_mem hmem
          exact hel x (by simp; omega)
        simp [pyEq]
        exact pyEqList_refl_of xs hx
    | set xs =>
        have hx : ∀ x ∈ xs, pyEq x x = true := by
          intro x hmem
          have h1 := List.sizeOf_lt_of_mem hmem
          exact hel x (by simp; omega)
        simp [pyEq]
        exact pyAllMem_refl_of xs hx
    | dict xs =>
        have hx : ∀ kv ∈ xs, pyEq kv.1 kv.1 = true ∧ pyEq kv.2 kv.2 = true := by
          intro kv hmem
          have h1 := List.sizeOf_lt_of_mem hmem
          obtain ⟨k2, v2⟩ := kv
          simp at h1
          constructor
          · exact hel k2 (by simp; omega)
          · exact hel v2 (by simp; omega)
        simp [pyEq]
        exact pyDictSub_refl_of xs hx

theorem dictGetOpt_dictSet (m : PyDict) (k v : Value) :
    dictGetOpt (dictSet m k v) k = some v := by
  induction m with
  | nil => simp [dictSet, dictGetOpt, pyEq_refl]
  | cons kv t ih =>
      obtain ⟨k2, v2⟩ := kv
      by_cases h : pyEq k k2 = true
      · simp [dictSet, h, dictGetOpt]
      · simp [dictSet, h, dictGetOpt, ih]

theorem resolveKey_none (p : List String) : resolveKey Value.none p = .ok Value.none := by
  induction p with
  | nil => simp [resolveKey]
  | cons k t ih => simp [resolveKey, resolveStep, truthy, ih]

theorem resolveKey_append (z : Value) (p1 p2 : List String) :
    resolveKey z (p1 ++ p2) = (resolveKey z p1) >>= fun w => resolveKey w p2 := by
  induction p1 generalizing z with
  | nil => simp [resolveKey]
  | cons k t ih =>
      simp only [List.cons_append, resolveKey]
      cases h : resolveStep z k with
      | ok w => simp [ih]
      | error e => simp

theorem to_map_go_append_skip (p : List String) (x k : Value)
    (hr : resolveKey x p = .ok k) (hk : truthy k = false) :
    ∀ (l : List Value) (res : PyDict), to_map_go p res (l ++ [x]) = to_map_go p res l := by
  intro l
  induction l with
  | nil => intro res; simp [to_map_go, hr, hk]
  | cons y t ih =>
      intro res
      simp only [List.cons_append, to_map_go]
      cases h : resolveKey y p with
      | ok k2 => simp [ih]
      | error e => simp

theorem to_map_go_append_set (p : List String) (x k : Value)
    (hr : resolveKey x p = .ok k) (hk : truthy k = true) :
    ∀ (l : List Value) (res m : PyDict), to_map_go p res l = .ok m →
      to_map_go p res (l ++ [x]) = .ok (dictSet m k x) := by
  intro l
  induction l with
  | nil =>
      intro res m h
      simp [to_map_go] at h
      simp [to_map_go, hr, hk, h]
  | cons y t ih =>
      intro res m h
      simp only [to_map_go] at h
      simp only [List.cons_append, to_map_go]
      cases h2 : resolveKey y p with
      | ok k2 =>
          rw [h2] at h
          simp at h
          simp [ih _ _ h]
      | error e =>
          rw [h2] at h
          simp at h

theorem exceptFilter_ok {α : Type} (p : α → Except PyErr Bool) (q : α → Bool) :
    ∀ l : List α, (∀ x ∈ l, p x = .ok (q x)) → exceptFilter p l = .ok (l.filter q) := by
  intro l
  induction l with
  | nil => intro _; simp [exceptFilter]
  | cons x t ih =>
      intro hpq
      simp [exceptFilter, hpq x (List.mem_cons_self x t),
        ih (fun z hz => hpq z (List.mem_cons_of_mem x hz)), List.filter_cons]

theorem exceptFilter_first_err {α : Type} (p : α → Except PyErr Bool) (e : PyErr)
    (h : ∀ x, p x = .ok false ∨ p x = .error e) :
    ∀ l : List α, (∃ x ∈ l, p x = .error e) → exceptFilter p l = .error e := by
  intro l
  induction l with
  | nil => rintro ⟨x, hx, _⟩; cases hx
  | cons y t ih =>
      rintro ⟨x, hx, hpe⟩
      rcases h y with hy | hy
      · have hxt : x ∈ t := by
          rcases List.mem_cons.mp hx with h1 | h2
          · rw [← h1] at hy; rw [hpe] at hy; cases hy
          · exact h2
        simp [exceptFilter, hy, ih ⟨x, hxt, hpe⟩]
      · simp [exceptFilter, hy]

mutual

theorem flattenStep_eq : ∀ (pres : List Value) (y : Value),
    flattenStep pres y = pres ++ leavesSpec y
  | pres, .list ys => by
      simp [flattenStep, leavesSpec, flattenFold_eq pres ys]
  | pres, .set ys => by
      simp [flattenStep, leavesSpec, flattenFold_eq pres ys]
  | pres, .tuple ys => by
      simp [flattenStep, leavesSpec, flattenFold_eq pres ys]
  | pres, .none => by simp [flattenStep, leavesSpec]
  | pres, .bool b => by simp [flattenStep, leavesSpec]
  | pres, .int m => by simp [flattenStep, leavesSpec]
  | pres, .str s => by simp [flattenStep, leavesSpec]
  | pres, .dict xs => by simp [flattenStep, leavesSpec]
termination_by _ y => sizeOf y

theorem flattenFold_eq : ∀ (pres ys : List Value),
    flattenFold pres ys = pres ++ leavesSpecList ys
  | pres, [] => by simp [flattenFold, leavesSpecList]
  | pres, y :: t => by
      rw [flattenFold, flattenStep_eq pres y, flattenFold_eq (pres ++ leavesSpec y) t]
      simp [leavesSpecList]
termination_by _ ys => sizeOf ys

end

theorem leavesSpecList_of_flat (l : List Value) (h : ∀ y ∈ l, isListLike y = false) :
    leavesSpecList l = l := by
  induction l with
  | nil => simp [leavesSpecList]
  | cons y t ih =>
      have hy := h y (List.mem_cons_self y t)
      have hstep : leavesSpec y = [y] := by
        cases y <;> simp_all [isListLike, leavesSpec]
      simp [leavesSpecList, hstep, ih (fun z hz => h z (List.mem_cons_of_mem y hz))]

/-- Claim C5: `one` returns the sole element of a one-element sequence and
fails with the cardinality `ValueError` on an empty sequence or on a
sequence with two or more elements. -/
theorem one_characterization :
    ∀ l : List Value,
      (∀ a : Value, l = [a] → one l = .ok a) ∧
      (l = [] → one l = .error (.valueError "The list is empty")) ∧
      (2 ≤ l.length → one l = .error (.valueError "The list contains more than 1 element")) := by
  intro l
  refine ⟨?_, ?_, ?_⟩
  · rintro a rfl; simp [one]
  · rintro rfl; simp [one]
  · intro h
    cases l with
    | nil => simp at h
    | cons a t =>
        cases t with
        | nil => simp at h
        | cons b t2 =>
            have h2 : 1 < (a :: b :: t2).length := by simp
            simp [one, h2]

/-- Witness for C5: `one` evaluated at the inputs named by the claim. -/
theorem one_characterization_witness :
    one [Value.int 5] = .ok (Value.int 5) ∧
    one [] = .error (.valueError "The list is empty") ∧
    one [Value.int 1, Value.int 2] = .error (.valueError "The list contains more than 1 element") :=
  ⟨(one_characterization [Value.int 5]).1 (Value.int 5) rfl,
   (one_characterization []).2.1 rfl,
   (one_characterization [Value.int 1, Value.int 2]).2.2 (by simp)⟩

/-- Claim C2: `to_map` maps an empty sequence to an empty mapping; appending
an item whose resolved key is falsy (in particular `None` when absent)
leaves the result unchanged; and appending an item whose resolved key is
truthy stores the item under that key, overwriting any earlier binding, so
the later item wins and looking the key up yields exactly that item. -/
theorem to_map_characterization :
    (∀ ik delim : String, to_map [] ik delim = .ok []) ∧
    (∀ (l : List Value) (x : Value) (ik delim : String) (k : Value),
      resolveKey x (pySplit ik delim) = .ok k → truthy k = false →
      to_map (l ++ [x]) ik delim = to_map l ik delim) ∧
    (∀ (l : List Value) (x : Value) (ik delim : String) (m : PyDict) (k : Value),
      to_map l ik delim = .ok m →
      resolveKey x (pySplit ik delim) = .ok k → truthy k = true →
      to_map (l ++ [x]) ik delim = .ok (dictSet m k x) ∧
        dictGetOpt (dictSet m k x) k = some x) := by
  refine ⟨?_, ?_, ?_⟩
  · intro ik delim; simp [to_map, to_map_go]
  · intro l x ik delim k hr hk
    simp [to_map, to_map_go_append_skip _ _ _ hr hk]
  · intro l x ik delim m k hm hr hk
    refine ⟨?_, dictGetOpt_dictSet m k x⟩
    simp only [to_map] at hm ⊢
    exact to_map_go_append_set _ _ _ hr hk _ _ _ hm

/-- Witness for C2: building a one-item map through the last-write clause. -/
theorem to_map_characterization_witness :
    to_map [Value.dict [(Value.str "id", Value.str "a")]] "id" "." =
      .ok [(Value.str "a", Value.dict [(Value.str "id", Value.str "a")])] := by
  have h := to_map_characterization.2.2 [] (Value.dict [(Value.str "id", Value.str "a")])
      "id" "." [] (Value.str "a") (by simp [to_map, to_map_go])
      (by simp [pySplit, splitAux, dropSep, resolveKey, resolveStep, truthy, dictGet, pyEq])
      rfl
  simpa [dictSet] using h.1

/-- Claim C10: in the key-path resolver shared by `to_map` and `map_keys`
(the fold of `lambda z,k: z.get(k) if z else None`), once the value reached
after some prefix of the path is falsy, the remaining non-empty path
resolves to `None` - not to an error and not to a lookup into the falsy
value. -/
theorem resolveKey_falsy_short_circuit :
    ∀ (z : Value) (p1 p2 : List String) (w : Value),
      resolveKey z p1 = .ok w → truthy w = false → p2 ≠ [] →
      resolveKey z (p1 ++ p2) = .ok Value.none := by
  intro z p1 p2 w h hw hp
  rw [resolveKey_append, h]
  simp only [okBind]
  cases p2 with
  | nil => exact absurd rfl hp
  | cons k t =>
      simp [resolveKey, resolveStep, hw, resolveKey_none]

/-- Witness for C10: an empty (hence falsy) intermediate dict resolves the
rest of the path to `None`. -/
theorem resolveKey_falsy_short_circuit_witness :
    resolveKey (Value.dict [(Value.str "a", Value.dict [])]) ["a", "b"] = .ok Value.none := by
  have h := resolveKey_falsy_short_circuit (Value.dict [(Value.str "a", Value.dict [])])
      ["a"] ["b"] (Value.dict [])
      (by simp [resolveKey, resolveStep, truthy, dictGet, pyEq]) rfl (by simp)
  simpa using h

/-- Claim C7: `flatten_list` returns exactly the depth-first, left-to-right
sequence of non-sequence leaves (`leavesSpecList`): list-, set- and
tuple-like values are expanded, everything else - including dicts - is
appended as-is, and empty nested sequences contribute nothing; in
particular the nested example from the specification flattens to
`[1, 2, 3, 4]` and a dict item is kept whole. -/
theorem flatten_list_leaves :
    (∀ l : List Value, flatten_list l = leavesSpecList l) ∧
    flatten_list [Value.list [Value.int 1, Value.list [Value.int 2, Value.int 3]],
        Value.list [], Value.list [Value.int 4]] =
      [Value.int 1, Value.int 2, Value.int 3, Value.int 4] ∧
    flatten_list [Value.dict [(Value.str "a", Value.int 1)]] =
      [Value.dict [(Value.str "a", Value.int 1)]] :=
  ⟨fun l => by simp [flatten_list, flattenFold_eq], rfl, rfl⟩

/-- Claim C8: on an already-flat sequence (no element is list-, set- or
tuple-like) `flatten_list` is idempotent. -/
theorem flatten_list_idempotent_on_flat :
    ∀ l : List Value, (∀ y ∈ l, isListLike y = false) →
      flatten_list (flatten_list l) = flatten_list l := by
  intro l h
  have h1 : flatten_list l = l := by
    simp [flatten_list, flattenFold_eq, leavesSpecList_of_flat l h]
  rw [h1]
  exact h1

/-- Witness for C8: idempotence at a concrete flat sequence. -/
theorem flatten_list_idempotent_on_flat_witness :
    flatten_list (flatten_list [Value.int 1, Value.str "a"]) =
      flatten_list [Value.int 1, Value.str "a"] :=
  flatten_list_idempotent_on_flat [Value.int 1, Value.str "a"] (by decide)

/-- Claim C6: `to_kv_pairs` keeps exactly the entries whose value is falsy
or scalar (truthy non-scalars are dropped), renders a falsy-valued entry as
the bare key and any other kept entry as `key=value`, and joins the
rendered entries with the separator in the order of the mapping; in
particular the example mapping renders as `a=x,b`. -/
theorem to_kv_pairs_characterization :
    (∀ (d : PyDict) (sep : String),
      to_kv_pairs d sep = String.intercalate sep
        (d.filterMap (fun kv =>
          if truthy kv.2 = false then some (pyStr kv.1)
          else if isScalar kv.2 = true then some (pyStr kv.1 ++ "=" ++ pyStr kv.2)
          else Option.none))) ∧
    to_kv_pairs [(Value.str "a", Value.str "x"), (Value.str "b", Value.str ""),
      (Value.str "c", Value.list [Value.int 1, Value.int 2])] "," = "a=x,b" := by
  constructor
  · intro d sep
    simp only [to_kv_pairs]
    congr 1
    induction d with
    | nil => simp
    | cons kv t ih =>
        obtain ⟨k2, v2⟩ := kv
        by_cases ht : truthy v2 = true
        · by_cases hs : isScalar v2 = true
          · simp [List.filterMap_cons, List.filter_cons, ht, hs, ih]
          · simp [List.filterMap_cons, List.filter_cons, ht, hs, ih]
        · simp [List.filterMap_cons, List.filter_cons, ht, ih]
  · rfl

/-- Claim C9: for every binary operator name, `filter_by_key` returns
exactly the items that contain the key and whose value compares as the
operator demands against the given value, preserving input order and always
excluding items missing the key; in particular the `gt` example from the
specification returns only the item with value 3. -/
theorem filter_by_key_binary :
    (∀ (l : List PyDict) (key : Value) (op : String) (value : Value),
      op ∈ binary_ops →
      filter_by_key l key op value =
        .ok (l.filter (fun x => hasKey x key && binaryTest op (dictGet x key) value))) ∧
    filter_by_key [[(Value.str "k", Value.int 1)], [(Value.str "k", Value.int 3)], []]
      (Value.str "k") "gt" (Value.int 2) = .ok [[(Value.str "k", Value.int 3)]] := by
  constructor
  · intro l key op value hop
    simp only [binary_ops, List.mem_cons, List.not_mem_nil, or_false] at hop
    rcases hop with rfl | rfl | rfl | rfl | rfl | rfl <;>
      · simp only [filter_by_key]
        rw [if_neg (by decide), if_neg (by decide), if_pos (by decide)]
        refine exceptFilter_ok _ _ l (fun x _ => ?_)
        by_cases h : hasKey x key = true
        · simp [h]
        · simp [h]
  · simp [filter_by_key, exceptFilter, hasKey, dictGet, pyEq, binaryTest, pyCmp,
      numVal, typeRank, intCmp, unary_ops, binary_ops, unaryTest]

/-- Witness for C9: filtering with `eq` at a concrete input. -/
theorem filter_by_key_binary_witness :
    filter_by_key [[(Value.str "k", Value.int 1)]] (Value.str "k") "eq" (Value.int 1) =
      .ok [[(Value.str "k", Value.int 1)]] := by
  have h := filter_by_key_binary.1 [[(Value.str "k", Value.int 1)]] (Value.str "k") "eq"
      (Value.int 1) (by simp [binary_ops])
  rw [h]
  simp [List.filter_cons, hasKey, dictGet, pyEq, binaryTest]

/-- Counterexample to claim C3 as stated: with operator `is` and an item
that contains the key, `filter_by_key` does not return a filtered sequence
at all - the dispatch table holds the two-argument `operator.is_`, it is
called with one argument, and the call raises a `TypeError`. -/
theorem filter_by_key_is_raises :
    filter_by_key [[(Value.str "k", Value.int 1)]] (Value.str "k") "is" Value.none =
      .error (.typeError "takes exactly 2 arguments (1 given)") := by
  simp [filter_by_key, exceptFilter, hasKey, dictGet, pyEq, unary_ops, binary_ops, unaryTest]

theorem filter_unary_err_helper (l : List PyDict) (key value : Value) (op msg : String)
    (hop1 : ¬(op = "exists")) (hop2 : unary_ops.contains op = true)
    (herr : ∀ v, unaryTest op v = .error (.typeError msg)) :
    ((∀ x ∈ l, hasKey x key = false) → filter_by_key l key op value = .ok []) ∧
    ((∃ x ∈ l, hasKey x key = true) →
      filter_by_key l key op value = .error (.typeError msg)) := by
  constructor
  · intro hnone
    simp only [filter_by_key]
    rw [if_neg hop1, if_pos hop2]
    have h2 := exceptFilter_ok
        (fun x : PyDict => if hasKey x key = true then unaryTest op (dictGet x key)
          else Except.ok false)
        (fun _ => false) l
        (fun x hx => by simp [hnone x hx])
    rw [h2]
    simp
  · rintro ⟨x, hx, hk⟩
    simp only [filter_by_key]
    rw [if_neg hop1, if_pos hop2]
    apply exceptFilter_first_err
    · intro z
      by_cases h : hasKey z key = true
      · right; simp [h, herr]
      · left; simp [h]
    · exact ⟨x, hx, by simp [hk, herr]⟩

/-- Claim C3 (amended): for the genuinely unary operators `not` and `truth`,
`filter_by_key` returns exactly the items that contain the key and whose
value passes the test, preserving order; for `is` and `is_not` the
registered functions take two arguments, so the call returns the empty
sequence when no item contains the key and raises a `TypeError` as soon as
some item does. -/
theorem filter_by_key_unary_amended :
    ∀ (l : List PyDict) (key value : Value),
      (filter_by_key l key "not" value =
        .ok (l.filter (fun x => hasKey x key && !truthy (dictGet x key)))) ∧
      (filter_by_key l key "truth" value =
        .ok (l.filter (fun x => hasKey x key && truthy (dictGet x key)))) ∧
      (∀ op : String, op = "is" ∨ op = "is_not" →
        ((∀ x ∈ l, hasKey x key = false) → filter_by_key l key op value = .ok []) ∧
        ((∃ x ∈ l, hasKey x key = true) →
          filter_by_key l key op value =
            .error (.typeError "takes exactly 2 arguments (1 given)"))) := by
  intro l key value
  refine ⟨?_, ?_, ?_⟩
  · simp only [filter_by_key]
    rw [if_neg (by decide), if_pos (by decide)]
    refine exceptFilter_ok _ _ l (fun x _ => ?_)
    by_cases h : hasKey x key = true
    · simp [h, unaryTest]
    · simp [h]
  · simp only [filter_by_key]
    rw [if_neg (by decide), if_pos (by decide)]
    refine exceptFilter_ok _ _ l (fun x _ => ?_)
    by_cases h : hasKey x key = true
    · simp [h, unaryTest]
    · simp [h]
  · intro op hop
    rcases hop with rfl | rfl
    · exact filter_unary_err_helper l key value "is" "takes exactly 2 arguments (1 given)"
        (by decide) (by decide) (fun v => by simp [unaryTest])
    · exact filter_unary_err_helper l key value "is_not" "takes exactly 2 arguments (1 given)"
        (by decide) (by decide) (fun v => by simp [unaryTest])

/-- Witness for the amended C3: `not` keeps a falsy-valued item, and
`is_not` raises on an item containing the key. -/
theorem filter_by_key_unary_amended_witness :
    filter_by_key [[(Value.str "k", Value.int 0)]] (Value.str "k") "not" Value.none =
      .ok [[(Value.str "k", Value.int 0)]] ∧
    filter_by_key [[(Value.str "k", Value.int 1)]] (Value.str "k") "is_not" Value.none =
      .error (.typeError "takes exactly 2 arguments (1 given)") := by
  constructor
  · have h := (filter_by_key_unary_amended [[(Value.str "k", Value.int 0)]]
        (Value.str "k") Value.none).1
    rw [h]
    simp [List.filter_cons, hasKey, dictGet, pyEq, truthy]
  · exact ((filter_by_key_unary_amended [[(Value.str "k", Value.int 1)]]
        (Value.str "k") Value.none).2.2 "is_not" (Or.inr rfl)).2
      ⟨[(Value.str "k", Value.int 1)], by simp, by simp [hasKey, pyEq]⟩

/-- Claim C4 exhibit: `map_keys` given the tuple `("a",)` as `keys` - an
iterable collection of key identifiers - raises the assertion error
`Expected an iterable of keys`, because the membership check accepts only a
list or a set; this contradicts the claim (and the docstring of the
function), which promise that any iterable of keys is accepted. -/
theorem map_keys_tuple_keys_assertion :
    map_keys [(Value.str "a", Value.int 1)] (Value.tuple [Value.str "a"]) Option.none "." false =
      .error (.assertionError "Expected an iterable of keys") := by
  simp [map_keys, pyEq]
